import Mathlib

/-! # DVL A50 driver: the command/response correlation engine

Shallow embedding of the `waterlinked::DvlA50Driver` class declared in
`src/dvl_a50_driver/include/dvl_a50_driver/driver.hpp` and defined in the
driver translation unit (`src/unnamed/part_000`).

Modelling conventions:
* `std::chrono` time points and durations are natural numbers (whole seconds
  suffice for every claim; `std::chrono::seconds(3)` becomes `3`);
* a `std::promise<std::optional<Response>>` is a cell in a growing store of
  `PromiseState` values, and the matching `std::future` is the cell's index;
* `std::unordered_map<std::string, std::queue<Request>>` is an association
  list from string keys to lists used as FIFO queues (head = oldest);
* a ghost field `sent` records every payload handed to the transport, so that
  "the driver sent X" is observable in the model.

The translation unit implements only the constructor, the destructor,
`send_request` and the four public command wrappers; `poll`, `send`,
`receive` and the watchdog/timeout sweeper are declared in the header but
have no body in the repository.  Definitions for those carry a doc comment
starting "Modelled from the spec:" and follow the specification's wording;
everything else is translated from the source.
-/

namespace DvlA50

/-- `waterlinked::Response` (driver.hpp): result of a request, a success flag
and an error message. -/
structure Response where
  success : Bool
  error_message : String
  deriving DecidableEq

/-- State of one `std::promise<std::optional<Response>>`: either not yet
satisfied, or satisfied with an `std::optional<Response>` (`none` being the
documented timeout signal). -/
inductive PromiseState where
  | pending
  | resolved (value : Option Response)
  deriving DecidableEq

/-- `DvlA50Driver::Request` (driver.hpp lines 111-116): the issue timestamp
`ts` (a `steady_clock` time point), the request's `timeout`, and its promise,
modelled as the index of the promise's cell in the promise store. -/
structure Request where
  ts : Nat
  timeout : Nat
  promise : Nat
  deriving DecidableEq

/-- `unordered_map` lookup into `responses_`: the queue stored for a key,
empty when the key is absent (an absent key and an empty queue are
equivalent). -/
def getQ : List (String × List Request) → String → List Request
  | [], _ => []
  | (k, q) :: rest, t => if k = t then q else getQ rest t

/-- `responses_[type].push(request)`: append at the back of the queue for the
key, default-constructing the entry when the key is absent (`operator[]`). -/
def pushQ : List (String × List Request) → String → Request → List (String × List Request)
  | [], t, r => [(t, [r])]
  | (k, q) :: rest, t, r =>
    if k = t then (k, q ++ [r]) :: rest else (k, q) :: pushQ rest t r

/-- Replace the queue stored for a key (how the receive loop's pop and the
sweeper's removal write the shrunken queue back). -/
def setQ : List (String × List Request) → String → List Request → List (String × List Request)
  | [], t, q => [(t, q)]
  | (k, q0) :: rest, t, q =>
    if k = t then (k, q) :: rest else (k, q0) :: setQ rest t q

/-- Every request outstanding in the table, over all keys. -/
def allReqs : List (String × List Request) → List Request
  | [] => []
  | (_, q) :: rest => q ++ allReqs rest

/-- The promise indices outstanding in the table. -/
def allPids (tbl : List (String × List Request)) : List Nat :=
  (allReqs tbl).map Request.promise

/-- The driver's state: the pending-request table `responses_` (driver.hpp
line 130), the promise store, the ghost transport log `sent`, the monotonic
clock, and whether the receive loop is running. -/
structure DriverState where
  responses_ : List (String × List Request)
  promises : List PromiseState
  sent : List String
  clock : Nat
  loopRunning : Bool
  deriving DecidableEq

/-- `DvlA50Driver::DvlA50Driver(ip, port)` (part_000 line 28): the body is
empty — no socket is opened and no poll or watchdog thread is started, so a
fresh driver has an empty table, no promises, nothing sent and no running
loop.  The arguments are accepted and ignored, as in the source. -/
def mkDriver (_ip : String) (_port : Int := 16171) : DriverState :=
  ⟨[], [], [], 0, false⟩

/-- `DvlA50Driver::send_request(type, command, timeout)` (part_000 lines
32-48): create a promise and take its future, build the `Request` stamped
with `steady_clock::now()`, and, under `responses_mutex_` (the `lock_guard`
scope), push it at the back of `responses_[type]`; return the future (the new
cell's index).  The `command` payload is NOT handed to the transport: the
body's only trace of sending is the comment `TODO(evan): send the message`
(part_000 line 35), so the ghost `sent` log is unchanged. -/
def send_request (st : DriverState) (type _command : String) (timeout : Nat) :
    DriverState × Nat :=
  let pid := st.promises.length
  let request : Request := ⟨st.clock, timeout, pid⟩
  ({ st with
      responses_ := pushQ st.responses_ type request
      promises := st.promises ++ [PromiseState.pending] }, pid)

/-- Payload literal built by `DvlA50Driver::calibrate_gyro` (part_000 line
52). -/
def calibrate_gyro_payload : String := "\x7b\"command\": \"calibrate_gyro\"\x7d"

/-- Payload literal built by `DvlA50Driver::trigger_ping` (part_000 line
58). -/
def trigger_ping_payload : String := "\x7b\"command\": \"trigger_ping\"\x7d"

/-- Payload literal built by `DvlA50Driver::reset_dead_reckoning` (part_000
line 64). -/
def reset_dead_reckoning_payload : String := "\x7b\"command\": \"reset_dead_reckoning\"\x7d"

/-- Payload built by `DvlA50Driver::set_config` (part_000 lines 71-72): the
`stringstream` concatenation of the opening object text, the caller's
fragment verbatim, and a closing brace.  No JSON validation happens. -/
def set_config_payload (config : String) : String :=
  "\x7b\"command\": \"set_config\"," ++ config ++ "\x7d"

/-- `DvlA50Driver::calibrate_gyro` (part_000 lines 50-54); the timeout
defaults to `std::chrono::seconds(3)` (driver.hpp line 68). -/
def calibrate_gyro (st : DriverState) (timeout : Nat := 3) : DriverState × Nat :=
  send_request st "calibrate_gyro" calibrate_gyro_payload timeout

/-- `DvlA50Driver::trigger_ping` (part_000 lines 56-60); the timeout defaults
to `std::chrono::seconds(3)` (driver.hpp line 83). -/
def trigger_ping (st : DriverState) (timeout : Nat := 3) : DriverState × Nat :=
  send_request st "trigger_ping" trigger_ping_payload timeout

/-- `DvlA50Driver::reset_dead_reckoning` (part_000 lines 62-66); the timeout
defaults to `std::chrono::seconds(3)` (driver.hpp lines 92-93). -/
def reset_dead_reckoning (st : DriverState) (timeout : Nat := 3) : DriverState × Nat :=
  send_request st "reset_dead_reckoning" reset_dead_reckoning_payload timeout

/-- `DvlA50Driver::set_config` (part_000 lines 68-74); the timeout defaults
to `std::chrono::seconds(3)` (driver.hpp lines 103-104). -/
def set_config (st : DriverState) (config : String) (timeout : Nat := 3) :
    DriverState × Nat :=
  send_request st "set_config" (set_config_payload config) timeout

/-- Monotonic time advancing between driver operations (`steady_clock`). -/
def tick (st : DriverState) (d : Nat) : DriverState :=
  { st with clock := st.clock + d }

/-- Modelled from the spec: the Receive Loop's reply-matching step (§4.2) —
the repository declares `DvlA50Driver::poll` (driver.hpp line 118) but ships
no body for it.  When a parsed line is a command reply for key `t`: under the
table's lock, pop the oldest pending request for `t` (FIFO — never match by
content, only by type and order) and satisfy its promise with the reply; an
unexpected reply (empty queue for `t`) is discarded with a diagnostic. -/
def matchReply (st : DriverState) (t : String) (v : Response) : DriverState :=
  match getQ st.responses_ t with
  | [] => st
  | r :: rest =>
    { st with
        responses_ := setQ st.responses_ t rest
        promises := st.promises.set r.promise (PromiseState.resolved (some v)) }

/-- A request whose deadline has passed at instant `now`:
`now() - issuedAt >= timeout`, in subtraction-free form. -/
def expiredAt (now : Nat) (r : Request) : Bool :=
  decide (r.ts + r.timeout ≤ now)

/-- Satisfy each promise cell listed in `pids` with the value `v`. -/
def resolveList (ps : List PromiseState) (pids : List Nat) (v : Option Response) :
    List PromiseState :=
  pids.foldl (fun acc p => acc.set p (PromiseState.resolved v)) ps

/-- Modelled from the spec: one pass of the Timeout Sweeper (§4.3) — the
repository declares the `watchdog_thread_` member (driver.hpp line 128) but
ships no sweeper body.  Under the table's lock, every request whose
`now() - issuedAt >= timeout` is removed — FIFO order of the survivors
preserved, whether or not the queue also holds still-live requests — and its
promise is satisfied with the empty/absent `Response`, the documented timeout
signal.  `now()` is the driver's clock at the pass. -/
def sweep (st : DriverState) : DriverState :=
  let expired := (allReqs st.responses_).filter (expiredAt st.clock)
  { st with
      responses_ :=
        st.responses_.map (fun kv => (kv.1, kv.2.filter (fun r => !expiredAt st.clock r)))
      promises := resolveList st.promises (expired.map Request.promise) none }

/-- The `Response` delivered to every waiter when the connection is lost
(spec §4.2, §7: `success=false` and a descriptive message). -/
def connectionLost : Response :=
  ⟨false, "connection to the DVL A50 lost"⟩

/-- Modelled from the spec: the Receive Loop's disconnect path (§4.2) — part
of the unimplemented `poll` body.  When the transport signals permanent
disconnection, fail every currently pending request (across all command
types, not merely leave them to time out) with a connection-lost `Response`,
then exit the loop. -/
def disconnect (st : DriverState) : DriverState :=
  { st with
      responses_ := []
      promises := resolveList st.promises (allPids st.responses_) (some connectionLost)
      loopRunning := false }

/-- The transitions of the code as written: the constructor body is empty
(part_000 line 28), so no receive or watchdog activity exists and only the
four public commands (and time itself) ever act on the state. -/
inductive StepAW : DriverState → DriverState → Prop
  | calibrate (st : DriverState) (tmo : Nat) : StepAW st (calibrate_gyro st tmo).1
  | ping (st : DriverState) (tmo : Nat) : StepAW st (trigger_ping st tmo).1
  | reset (st : DriverState) (tmo : Nat) : StepAW st (reset_dead_reckoning st tmo).1
  | config (st : DriverState) (c : String) (tmo : Nat) : StepAW st (set_config st c tmo).1
  | clock (st : DriverState) (d : Nat) : StepAW st (tick st d)

/-- States the as-written driver can reach from a freshly constructed one. -/
inductive ReachableAW : DriverState → Prop
  | init (ip : String) (port : Int) : ReachableAW (mkDriver ip port)
  | step {st st' : DriverState} : ReachableAW st → StepAW st st' → ReachableAW st'

/-- Modelled from the spec: the full system's interleaved transitions —
caller contexts issuing commands, the Receive Loop matching replies or
draining on disconnect, the Timeout Sweeper's pass, and time advancing.  Each
table-mutating action is atomic here because the spec performs every table
access under the single `responses_mutex_` guard (§3, §5), so no activity
observes a partially updated table. -/
inductive Step : DriverState → DriverState → Prop
  | cmd {st st' : DriverState} : StepAW st st' → Step st st'
  | reply (st : DriverState) (t : String) (v : Response) : Step st (matchReply st t v)
  | sweepPass (st : DriverState) : Step st (sweep st)
  | close (st : DriverState) : Step st (disconnect st)

/-- States reachable from a fresh driver under the full (spec-modelled)
system: commands, replies, sweeper passes, disconnect, in any interleaving. -/
inductive Reachable : DriverState → Prop
  | init (ip : String) (port : Int) : Reachable (mkDriver ip port)
  | step {st st' : DriverState} : Reachable st → Step st st' → Reachable st'

/-- Table sanity: every outstanding request's promise cell exists and is
still pending, and no promise cell is referenced by two outstanding
requests. -/
def Inv (st : DriverState) : Prop :=
  (∀ p ∈ allPids st.responses_, st.promises.get? p = some PromiseState.pending) ∧
  (allPids st.responses_).Nodup

/-- Lock-relevant actions of a code path: acquiring `responses_mutex_`,
mutating `responses_`, releasing the mutex. -/
inductive LockAction where
  | acquire
  | mutateTable
  | release
  deriving DecidableEq

/-- The body of `send_request` as its sequence of lock-relevant actions: the
`std::lock_guard` scope (part_000 lines 42-45) opens, the single push into
`responses_` happens, the scope closes. -/
def send_request_actions : List LockAction :=
  [LockAction.acquire, LockAction.mutateTable, LockAction.release]

/-- Scans a trace left to right tracking lock depth: `true` iff every table
mutation occurs while the mutex is held. -/
def mutationsLocked : List LockAction → Nat → Bool
  | [], _ => true
  | LockAction.acquire :: rest, d => mutationsLocked rest (d + 1)
  | LockAction.release :: rest, d => mutationsLocked rest (d - 1)
  | LockAction.mutateTable :: rest, d => decide (0 < d) && mutationsLocked rest d

/-- Does `pat` occur as a contiguous run inside the second list? -/
def containsSeq (pat : List Char) : List Char → Bool
  | [] => pat.isEmpty
  | c :: rest => pat.isPrefixOf (c :: rest) || containsSeq pat rest

end DvlA50

namespace DvlA50

/-- Pushing for a key appends at the back of that key's queue. -/
theorem getQ_pushQ_self (tbl : List (String × List Request)) (t : String) (r : Request) :
    getQ (pushQ tbl t r) t = getQ tbl t ++ [r] := by
  induction tbl with
  | nil => simp [getQ, pushQ]
  | cons kv rest ih =>
    obtain ⟨k, q⟩ := kv
    by_cases h : k = t
    · simp [getQ, pushQ, h]
    · simp [getQ, pushQ, h, ih]

/-- Pushing for a key leaves every other key's queue unchanged. -/
theorem getQ_pushQ_ne (tbl : List (String × List Request)) (t t' : String) (r : Request)
    (h : t' ≠ t) : getQ (pushQ tbl t r) t' = getQ tbl t' := by
  have h' : ¬(t = t') := fun hc => h hc.symm
  induction tbl with
  | nil => simp [getQ, pushQ, h']
  | cons kv rest ih =>
    obtain ⟨k, q⟩ := kv
    by_cases hk : k = t
    · subst hk
      simp [getQ, pushQ, h']
    · simp [getQ, pushQ, hk, ih]

/-- Writing a queue for a key makes lookup of that key return it. -/
theorem getQ_setQ_self (tbl : List (String × List Request)) (t : String) (q : List Request) :
    getQ (setQ tbl t q) t = q := by
  induction tbl with
  | nil => simp [getQ, setQ]
  | cons kv rest ih =>
    obtain ⟨k, q0⟩ := kv
    by_cases h : k = t
    · simp [getQ, setQ, h]
    · simp [getQ, setQ, h, ih]

/-- Writing a queue for a key leaves every other key's queue unchanged. -/
theorem getQ_setQ_ne (tbl : List (String × List Request)) (t t' : String) (q : List Request)
    (h : t' ≠ t) : getQ (setQ tbl t q) t' = getQ tbl t' := by
  have h' : ¬(t = t') := fun hc => h hc.symm
  induction tbl with
  | nil => simp [getQ, setQ, h']
  | cons kv rest ih =>
    obtain ⟨k, q0⟩ := kv
    by_cases hk : k = t
    · subst hk
      simp [getQ, setQ, h']
    · simp [getQ, setQ, hk, ih]

/-- A request found under some key is outstanding in the table. -/
theorem mem_allReqs_of_mem_getQ {tbl : List (String × List Request)} {t : String}
    {r : Request} (h : r ∈ getQ tbl t) : r ∈ allReqs tbl := by
  induction tbl with
  | nil => simp [getQ] at h
  | cons kv rest ih =>
    obtain ⟨k, q⟩ := kv
    by_cases hk : k = t
    · simp only [getQ, if_pos hk] at h
      simp [allReqs, h]
    · simp only [getQ, if_neg hk] at h
      simp [allReqs, ih h]

/-- The outstanding promise indices after a push are a permutation of the new
request's index put before the old ones. -/
theorem allPids_pushQ_perm (tbl : List (String × List Request)) (t : String) (r : Request) :
    (allPids (pushQ tbl t r)).Perm (r.promise :: allPids tbl) := by
  induction tbl with
  | nil => simp [allPids, allReqs, pushQ]
  | cons kv rest ih =>
    obtain ⟨k, q⟩ := kv
    by_cases h : k = t
    · simp only [pushQ, if_pos h, allPids, allReqs, List.map_append, List.map_cons,
        List.map_nil, List.append_assoc, List.singleton_append]
      exact List.perm_middle
    · simp only [pushQ, if_neg h, allPids, allReqs, List.map_append]
      exact (List.Perm.append_left _ ih).trans List.perm_middle

/-- Popping the oldest request of a key: the old outstanding indices are a
permutation of the popped index put before the remaining ones. -/
theorem allPids_setQ_pop {tbl : List (String × List Request)} {t : String}
    {r : Request} {rest : List Request} (h : getQ tbl t = r :: rest) :
    (allPids tbl).Perm (r.promise :: allPids (setQ tbl t rest)) := by
  induction tbl with
  | nil => simp [getQ] at h
  | cons kv tl ih =>
    obtain ⟨k, q⟩ := kv
    by_cases hk : k = t
    · simp only [getQ, if_pos hk] at h
      subst h
      simp [allPids, allReqs, setQ, if_pos hk]
    · simp only [getQ, if_neg hk] at h
      simp only [allPids, allReqs, setQ, if_neg hk, List.map_append]
      exact (List.Perm.append_left _ (ih h)).trans List.perm_middle

/-- Filtering every queue in place filters the outstanding requests. -/
theorem allReqs_filter (tbl : List (String × List Request)) (f : Request → Bool) :
    allReqs (tbl.map (fun kv => (kv.1, kv.2.filter f))) = (allReqs tbl).filter f := by
  induction tbl with
  | nil => simp [allReqs]
  | cons kv rest ih =>
    obtain ⟨k, q⟩ := kv
    simp [allReqs, List.filter_append, ih]

/-- Filtering every queue in place filters each key's queue. -/
theorem getQ_map_filter (tbl : List (String × List Request)) (f : Request → Bool)
    (t : String) :
    getQ (tbl.map (fun kv => (kv.1, kv.2.filter f))) t = (getQ tbl t).filter f := by
  induction tbl with
  | nil => simp [getQ]
  | cons kv rest ih =>
    obtain ⟨k, q⟩ := kv
    by_cases h : k = t
    · simp [getQ, h]
    · simp [getQ, h, ih]


/-- Resolving a batch of promise cells keeps the store's length. -/
theorem resolveList_length (ps : List PromiseState) (pids : List Nat) (v : Option Response) :
    (resolveList ps pids v).length = ps.length := by
  induction pids generalizing ps with
  | nil => rfl
  | cons p rest ih =>
    calc (resolveList ps (p :: rest) v).length
        = (resolveList (ps.set p (PromiseState.resolved v)) rest v).length := rfl
      _ = (ps.set p (PromiseState.resolved v)).length := ih _
      _ = ps.length := List.length_set ps p _

/-- A cell not in the batch is untouched by a batch resolution. -/
theorem resolveList_get?_not_mem {ps : List PromiseState} {pids : List Nat}
    {v : Option Response} {p : Nat} (h : p ∉ pids) :
    (resolveList ps pids v).get? p = ps.get? p := by
  induction pids generalizing ps with
  | nil => rfl
  | cons q rest ih =>
    have hq : p ≠ q := fun hc => h (hc ▸ List.mem_cons_self q rest)
    have hr : p ∉ rest := fun hc => h (List.mem_cons_of_mem q hc)
    calc (resolveList ps (q :: rest) v).get? p
        = (resolveList (ps.set q (PromiseState.resolved v)) rest v).get? p := rfl
      _ = (ps.set q (PromiseState.resolved v)).get? p := ih hr
      _ = ps.get? p := List.get?_set_ne _ _ (Ne.symm hq)

/-- A cell in the batch ends resolved with the batch's value. -/
theorem resolveList_get?_mem {ps : List PromiseState} {pids : List Nat}
    {v : Option Response} {p : Nat} (h : p ∈ pids) (hlen : p < ps.length) :
    (resolveList ps pids v).get? p = some (PromiseState.resolved v) := by
  induction pids generalizing ps with
  | nil => simp at h
  | cons q rest ih =>
    by_cases hr : p ∈ rest
    · exact ih hr (by simpa using hlen)
    · have hq : p = q := by
        rcases List.mem_cons.mp h with h1 | h1
        · exact h1
        · exact absurd h1 hr
      subst hq
      calc (resolveList ps (p :: rest) v).get? p
          = (resolveList (ps.set p (PromiseState.resolved v)) rest v).get? p := rfl
        _ = (ps.set p (PromiseState.resolved v)).get? p := resolveList_get?_not_mem hr
        _ = some (PromiseState.resolved v) := List.get?_set_eq_of_lt _ hlen

/-- The two halves of a filter have disjoint images when the whole image has
no duplicates. -/
theorem disjoint_filter_map_of_nodup {l : List Request} (f : Request → Bool)
    (h : (l.map Request.promise).Nodup) :
    ((l.filter f).map Request.promise).Disjoint
      ((l.filter (fun r => !f r)).map Request.promise) := by
  have hp : ((l.filter f).map Request.promise ++
      (l.filter (fun r => !f r)).map Request.promise).Perm (l.map Request.promise) := by
    have := (List.filter_append_perm f l).map Request.promise
    simpa [List.map_append] using this
  have : ((l.filter f).map Request.promise ++
      (l.filter (fun r => !f r)).map Request.promise).Nodup :=
    (hp.nodup_iff).mpr h
  exact (List.nodup_append.mp this).2.2


/-- A freshly constructed driver satisfies the table invariant. -/
theorem inv_init (ip : String) (port : Int) : Inv (mkDriver ip port) := by
  refine ⟨?_, ?_⟩ <;> simp [Inv, mkDriver, allPids, allReqs]

/-- An index with a pending cell is inside the store. -/
theorem lt_length_of_pending {ps : List PromiseState} {p : Nat}
    (h : ps.get? p = some PromiseState.pending) : p < ps.length :=
  (List.get?_eq_some.mp h).1

/-- `send_request` preserves the table invariant: the fresh promise index is
new to the table and its cell starts pending. -/
theorem inv_send_request (st : DriverState) (t c : String) (tmo : Nat) (h : Inv st) :
    Inv (send_request st t c tmo).1 := by
  obtain ⟨hpend, hnd⟩ := h
  have hperm := allPids_pushQ_perm st.responses_ t ⟨st.clock, tmo, st.promises.length⟩
  have hnotin : st.promises.length ∉ allPids st.responses_ := by
    intro hmem
    exact absurd (lt_length_of_pending (hpend _ hmem)) (lt_irrefl _)
  constructor
  · intro p hp
    have hp' : p = st.promises.length ∨ p ∈ allPids st.responses_ := by
      simpa using hperm.mem_iff.mp hp
    rcases hp' with h1 | h1
    · subst h1
      exact List.get?_concat_length st.promises PromiseState.pending
    · have hlt := lt_length_of_pending (hpend _ h1)
      calc (st.promises ++ [PromiseState.pending]).get? p
          = st.promises.get? p := List.get?_append hlt
        _ = some PromiseState.pending := hpend _ h1
  · exact hperm.nodup_iff.mpr (List.nodup_cons.mpr ⟨hnotin, hnd⟩)

/-- A clock tick preserves the table invariant. -/
theorem inv_tick (st : DriverState) (d : Nat) (h : Inv st) : Inv (tick st d) := h

/-- Every as-written transition preserves the table invariant. -/
theorem inv_stepAW {st st' : DriverState} (h : Inv st) (hs : StepAW st st') : Inv st' := by
  cases hs with
  | calibrate tmo => exact inv_send_request _ _ _ tmo h
  | ping tmo => exact inv_send_request _ _ _ tmo h
  | reset tmo => exact inv_send_request _ _ _ tmo h
  | config c tmo => exact inv_send_request _ _ _ tmo h
  | clock d => exact inv_tick _ d h

/-- The receive loop's match step preserves the table invariant: the popped
request's cell leaves the table as it is resolved, every other cell is
untouched. -/
theorem inv_matchReply (st : DriverState) (t : String) (v : Response) (h : Inv st) :
    Inv (matchReply st t v) := by
  obtain ⟨hpend, hnd⟩ := h
  rcases hq : getQ st.responses_ t with _ | ⟨r, rest⟩
  · have hM : matchReply st t v = st := by
      simp [matchReply, hq]
    rw [hM]
    exact ⟨hpend, hnd⟩
  · have hM : matchReply st t v =
        { st with
            responses_ := setQ st.responses_ t rest
            promises := st.promises.set r.promise (PromiseState.resolved (some v)) } := by
      simp [matchReply, hq]
    have hperm := allPids_setQ_pop hq
    have hnd' : (r.promise :: allPids (setQ st.responses_ t rest)).Nodup :=
      hperm.nodup_iff.mp hnd
    have hnotin : r.promise ∉ allPids (setQ st.responses_ t rest) :=
      (List.nodup_cons.mp hnd').1
    rw [hM]
    constructor
    · intro p hp
      have hp' : p ∈ allPids st.responses_ :=
        hperm.mem_iff.mpr (List.mem_cons_of_mem _ hp)
      have hne : p ≠ r.promise := fun hc => hnotin (hc ▸ hp)
      calc (st.promises.set r.promise (PromiseState.resolved (some v))).get? p
          = st.promises.get? p := List.get?_set_ne _ _ (Ne.symm hne)
        _ = some PromiseState.pending := hpend _ hp'
    · exact (List.nodup_cons.mp hnd').2

/-- The sweeper's pass preserves the table invariant: the expired requests
leave the table as they are resolved, the survivors' cells are untouched. -/
theorem inv_sweep (st : DriverState) (h : Inv st) : Inv (sweep st) := by
  obtain ⟨hpend, hnd⟩ := h
  have hsub : (((allReqs st.responses_).filter
        (fun r => !expiredAt st.clock r)).map Request.promise).Sublist
      (allPids st.responses_) :=
    List.Sublist.map Request.promise (List.filter_sublist _)
  have hdisj := disjoint_filter_map_of_nodup (expiredAt st.clock) hnd
  constructor
  · intro p hp
    have hp0 : p ∈ ((allReqs st.responses_).filter
        (fun r => !expiredAt st.clock r)).map Request.promise := by
      simpa [sweep, allPids, allReqs_filter] using hp
    have hp' : p ∈ allPids st.responses_ := hsub.mem hp0
    have hnot : p ∉ ((allReqs st.responses_).filter
        (expiredAt st.clock)).map Request.promise := fun hc => hdisj hc hp0
    simp only [sweep]
    calc (resolveList st.promises
            (((allReqs st.responses_).filter (expiredAt st.clock)).map Request.promise)
            none).get? p
        = st.promises.get? p := resolveList_get?_not_mem hnot
      _ = some PromiseState.pending := hpend _ hp'
  · have : (allPids (sweep st).responses_) =
        ((allReqs st.responses_).filter (fun r => !expiredAt st.clock r)).map
          Request.promise := by
      simp [sweep, allPids, allReqs_filter]
    rw [this]
    exact hnd.sublist hsub

/-- The disconnect drain preserves the table invariant (the table empties). -/
theorem inv_disconnect (st : DriverState) (_h : Inv st) : Inv (disconnect st) := by
  refine ⟨?_, ?_⟩ <;> simp [Inv, disconnect, allPids, allReqs]

/-- Every transition of the full (spec-modelled) system preserves the table
invariant. -/
theorem inv_step {st st' : DriverState} (h : Inv st) (hs : Step st st') : Inv st' := by
  cases hs with
  | cmd haw => exact inv_stepAW h haw
  | reply t v => exact inv_matchReply _ t v h
  | sweepPass => exact inv_sweep _ h
  | close => exact inv_disconnect _ h

/-- Every reachable state satisfies the table invariant. -/
theorem reachable_inv {st : DriverState} (h : Reachable st) : Inv st := by
  induction h with
  | init ip port => exact inv_init ip port
  | step _ hs ih => exact inv_step ih hs


/-- The empty pattern occurs in every list. -/
theorem containsSeq_nil_pat : ∀ l : List Char, containsSeq [] l = true
  | [] => rfl
  | _ :: _ => rfl

/-- If a pattern sits contiguously inside a list, `containsSeq` finds it. -/
theorem containsSeq_append (pat l l' : List Char) :
    containsSeq pat (l ++ pat ++ l') = true := by
  induction l with
  | nil =>
    cases pat with
    | nil => exact containsSeq_nil_pat _
    | cons c cs =>
      simp only [List.nil_append, containsSeq, Bool.or_eq_true]
      left
      exact List.isPrefixOf_iff_prefix.mpr (List.prefix_append _ _)
  | cons c cs ih =>
    simp only [List.cons_append, containsSeq, Bool.or_eq_true]
    right
    exact ih

/-- C1: evaluation of the code at the failing input.  A `calibrate_gyro` call
with the default 3 s timeout on a freshly constructed driver queues the
pending request (issued at the current clock, at the back of the
`calibrate_gyro` queue) and returns its future, but hands nothing to the
transport — the claimed `Transport.send(payload)` step never happens
(part_000 line 35 is only `TODO(evan): send the message`). -/
theorem send_request_sends_nothing :
    getQ ((calibrate_gyro (mkDriver "192.168.194.95" 16171) 3).1).responses_
        "calibrate_gyro" = [⟨0, 3, 0⟩] ∧
    ((calibrate_gyro (mkDriver "192.168.194.95" 16171) 3).1).sent = [] :=
  ⟨rfl, rfl⟩

/-- C6: evaluation of the code at the failing input.  After `set_config` on a
fresh driver, nothing was handed to the transport (so a transport send can
neither fail nor be detected) and the returned future's promise cell is still
pending — the handle does not resolve with a transport-failure `Response`. -/
theorem send_failure_not_signalled :
    ((set_config (mkDriver "192.168.194.95" 16171)
        "\"parameters\": \x7b\"speed_of_sound\": 1480\x7d" 3).1).sent = [] ∧
    ((set_config (mkDriver "192.168.194.95" 16171)
        "\"parameters\": \x7b\"speed_of_sound\": 1480\x7d" 3).1).promises.get? 0
      = some PromiseState.pending :=
  ⟨rfl, rfl⟩

/-- C7 counterexample: for the concrete caller fragment `"sound_speed": 1480`
the payload built by `set_config` is the plain concatenation and contains no
`"parameters"` key at all, refuting the claim that the caller-supplied
fragment is embedded under a `"parameters"` key for every config string. -/
theorem set_config_no_parameters_key :
    set_config_payload "\"sound_speed\": 1480" =
        "\x7b\"command\": \"set_config\",\"sound_speed\": 1480\x7d" ∧
    containsSeq "parameters".data
        (set_config_payload "\"sound_speed\": 1480").data = false := by
  refine ⟨rfl, ?_⟩
  decide

/-- C7 (amended): `set_config` builds its payload by plain concatenation —
the string `{"command": "set_config",` followed by the caller's fragment
verbatim and a closing brace — with no JSON validation and without itself
adding a `"parameters"` key; the fragment always occurs verbatim in the
payload. -/
theorem set_config_payload_spec (st : DriverState) (config : String) (tmo : Nat) :
    set_config st config tmo
        = send_request st "set_config"
            ("\x7b\"command\": \"set_config\"," ++ config ++ "\x7d") tmo ∧
    containsSeq config.data (set_config_payload config).data = true := by
  constructor
  · rfl
  · have h : (set_config_payload config).data
        = "\x7b\"command\": \"set_config\",".data ++ config.data ++ "\x7d".data := by
      simp [set_config_payload, String.data_append]
    rw [h]
    exact containsSeq_append _ _ _

/-- C8: each of the four public commands called without an explicit timeout
argument queues its pending request with the default timeout of 3 seconds
(`std::chrono::seconds(3)` in driver.hpp lines 68, 83, 92-93, 103-104). -/
theorem default_timeout_three (st : DriverState) (config : String) :
    getQ (calibrate_gyro st).1.responses_ "calibrate_gyro"
        = getQ st.responses_ "calibrate_gyro" ++ [⟨st.clock, 3, st.promises.length⟩] ∧
    getQ (trigger_ping st).1.responses_ "trigger_ping"
        = getQ st.responses_ "trigger_ping" ++ [⟨st.clock, 3, st.promises.length⟩] ∧
    getQ (reset_dead_reckoning st).1.responses_ "reset_dead_reckoning"
        = getQ st.responses_ "reset_dead_reckoning" ++ [⟨st.clock, 3, st.promises.length⟩] ∧
    getQ (set_config st config).1.responses_ "set_config"
        = getQ st.responses_ "set_config" ++ [⟨st.clock, 3, st.promises.length⟩] :=
  ⟨getQ_pushQ_self _ _ _, getQ_pushQ_self _ _ _, getQ_pushQ_self _ _ _,
    getQ_pushQ_self _ _ _⟩

/-- C9: in the code as written, no code path ever satisfies a promise — the
constructor starts no receive or watchdog activity and `send_request` only
stores the promise — so along any as-written execution every promise cell is
still pending and no returned future is ever made ready. -/
theorem no_completion_path {st : DriverState} (h : ReachableAW st) :
    ∀ i v, st.promises.get? i ≠ some (PromiseState.resolved v) := by
  have hall : ∀ s ∈ st.promises, s = PromiseState.pending := by
    induction h with
    | init ip port =>
      intro s hs
      simp [mkDriver] at hs
    | step hr hs ih =>
      intro s hs'
      cases hs with
      | calibrate tmo =>
        rcases List.mem_append.mp hs' with h1 | h1
        · exact ih _ h1
        · exact List.mem_singleton.mp h1
      | ping tmo =>
        rcases List.mem_append.mp hs' with h1 | h1
        · exact ih _ h1
        · exact List.mem_singleton.mp h1
      | reset tmo =>
        rcases List.mem_append.mp hs' with h1 | h1
        · exact ih _ h1
        · exact List.mem_singleton.mp h1
      | config c tmo =>
        rcases List.mem_append.mp hs' with h1 | h1
        · exact ih _ h1
        · exact List.mem_singleton.mp h1
      | clock d => exact ih _ hs'
  intro i v hcontra
  exact PromiseState.noConfusion (hall _ (List.get?_mem hcontra))

/-- C9 witness: on the concrete as-written run "construct, then
`calibrate_gyro`", the future returned by the command (promise cell 0) is not
resolved. -/
theorem no_completion_path_witness :
    ((calibrate_gyro (mkDriver "192.168.194.95" 16171) 3).1).promises.get? 0
        ≠ some (PromiseState.resolved none) :=
  no_completion_path
    (ReachableAW.step (ReachableAW.init "192.168.194.95" 16171)
      (StepAW.calibrate (mkDriver "192.168.194.95" 16171) 3)) 0 none

/-- C10: frame property of `send_request` — the call appends exactly one
request (stamped with the current clock and the fresh promise index) at the
back of the queue for its type, every other key's queue is untouched, the
older entries of the type's own queue are preserved in place, and the single
table mutation in the body's trace happens with `responses_mutex_` held. -/
theorem send_request_frame (st : DriverState) (t c : String) (tmo : Nat) :
    getQ (send_request st t c tmo).1.responses_ t
        = getQ st.responses_ t ++ [⟨st.clock, tmo, st.promises.length⟩] ∧
    (∀ t', t' ≠ t → getQ (send_request st t c tmo).1.responses_ t' = getQ st.responses_ t') ∧
    mutationsLocked send_request_actions 0 = true :=
  ⟨getQ_pushQ_self _ _ _, fun _ h => getQ_pushQ_ne _ _ _ _ h, rfl⟩

/-- C10 witness: pushing a `calibrate_gyro` request on a fresh driver leaves
the `trigger_ping` queue unchanged. -/
theorem send_request_frame_witness :
    getQ (send_request (mkDriver "192.168.194.95" 16171) "calibrate_gyro"
        calibrate_gyro_payload 3).1.responses_ "trigger_ping"
      = getQ (mkDriver "192.168.194.95" 16171).responses_ "trigger_ping" :=
  (send_request_frame (mkDriver "192.168.194.95" 16171) "calibrate_gyro"
      calibrate_gyro_payload 3).2.1 "trigger_ping" (by decide)


/-- Reading the first of two written cells: the later write to a different
index does not shadow the earlier one. -/
theorem get?_set_set_fst {ps : List PromiseState} {i j : Nat} {a b : PromiseState}
    (hij : j ≠ i) (hi : i < ps.length) : ((ps.set i a).set j b).get? i = some a := by
  rw [List.get?_set_ne b _ hij]
  exact List.get?_set_eq_of_lt a hi

/-- Unfolding the receive loop's match when the type has waiters: the oldest
is popped and its promise satisfied with the reply. -/
theorem matchReply_cons {st : DriverState} {t : String} {r : Request}
    {rest : List Request} (hq : getQ st.responses_ t = r :: rest) (v : Response) :
    matchReply st t v
      = { st with
          responses_ := setQ st.responses_ t rest
          promises := st.promises.set r.promise (PromiseState.resolved (some v)) } := by
  simp [matchReply, hq]

/-- C2 (spec-modelled receive loop): FIFO matching.  Issue command A then
command B of the same type `t` (no other request of that type outstanding),
then let two replies for `t` arrive in order.  A's future resolves to the
first reply and B's to the second — the match never looks at reply content,
only at type and order. -/
theorem fifo_matching (st : DriverState) (t cA cB : String) (dA dB : Nat)
    (v1 v2 : Response) (hq : getQ st.responses_ t = []) :
    (matchReply (matchReply (send_request (send_request st t cA dA).1 t cB dB).1 t v1)
          t v2).promises.get? (send_request st t cA dA).2
        = some (PromiseState.resolved (some v1)) ∧
    (matchReply (matchReply (send_request (send_request st t cA dA).1 t cB dB).1 t v1)
          t v2).promises.get? (send_request (send_request st t cA dA).1 t cB dB).2
        = some (PromiseState.resolved (some v2)) := by
  have hq1 : getQ (send_request st t cA dA).1.responses_ t
      = [⟨st.clock, dA, st.promises.length⟩] := by
    show getQ (pushQ st.responses_ t ⟨st.clock, dA, st.promises.length⟩) t = _
    rw [getQ_pushQ_self, hq]
    rfl
  have hq2 : getQ (send_request (send_request st t cA dA).1 t cB dB).1.responses_ t
      = [⟨st.clock, dA, st.promises.length⟩,
         ⟨st.clock, dB, (st.promises ++ [PromiseState.pending]).length⟩] := by
    show getQ (pushQ (send_request st t cA dA).1.responses_ t
        ⟨st.clock, dB, (st.promises ++ [PromiseState.pending]).length⟩) t = _
    rw [getQ_pushQ_self, hq1]
    rfl
  have hM1 := matchReply_cons hq2 v1
  have hq3 : getQ (matchReply (send_request (send_request st t cA dA).1 t cB dB).1
        t v1).responses_ t
      = [⟨st.clock, dB, (st.promises ++ [PromiseState.pending]).length⟩] := by
    rw [hM1]
    exact getQ_setQ_self _ _ _
  have hM2 := matchReply_cons hq3 v2
  constructor
  · rw [hM2, hM1]
    exact get?_set_set_fst (by simp) (by simp [send_request])
  · rw [hM2, hM1]
    exact List.get?_set_eq_of_lt _ (by simp [send_request])

/-- C2 witness: on a fresh driver, issue `trigger_ping` twice and deliver two
distinct replies in order; the first future holds the first reply and the
second future the second. -/
theorem fifo_matching_witness :
    (matchReply (matchReply (send_request
          (send_request (mkDriver "192.168.194.95" 16171) "trigger_ping"
            trigger_ping_payload 3).1 "trigger_ping" trigger_ping_payload 5).1
          "trigger_ping" ⟨true, ""⟩) "trigger_ping" ⟨false, "err"⟩).promises.get?
        (send_request (mkDriver "192.168.194.95" 16171) "trigger_ping"
          trigger_ping_payload 3).2
      = some (PromiseState.resolved (some ⟨true, ""⟩)) :=
  (fifo_matching (mkDriver "192.168.194.95" 16171) "trigger_ping"
      trigger_ping_payload trigger_ping_payload 3 5 ⟨true, ""⟩ ⟨false, "err"⟩ rfl).1


/-- C3 (spec-modelled receive loop and sweeper over the code's table): along
any interleaving of caller commands, reply matches, sweeper passes and a
disconnect, a promise once resolved keeps its value through every further
step — it is assigned exactly once, by whichever of the receive loop or the
sweeper removed its entry from the table under the lock first, even when a
matching reply and a timeout expiry race — and a resolved promise's entry is
no longer in the table, removed and never revisited. -/
theorem completion_exactly_once {st : DriverState} (h : Reachable st) :
    (∀ i v st', st.promises.get? i = some (PromiseState.resolved v) → Step st st' →
        st'.promises.get? i = some (PromiseState.resolved v)) ∧
    (∀ i v, st.promises.get? i = some (PromiseState.resolved v) →
        i ∉ allPids st.responses_) := by
  obtain ⟨hpend, hnd⟩ := reachable_inv h
  have hnotin : ∀ i v, st.promises.get? i = some (PromiseState.resolved v) →
      i ∉ allPids st.responses_ := by
    intro i v hres hmem
    rw [hpend _ hmem] at hres
    exact PromiseState.noConfusion (Option.some.inj hres)
  refine ⟨?_, hnotin⟩
  intro i v st' hres hstep
  have hi : i < st.promises.length := (List.get?_eq_some.mp hres).1
  cases hstep with
  | cmd haw =>
    cases haw with
    | calibrate tmo => exact (List.get?_append hi).trans hres
    | ping tmo => exact (List.get?_append hi).trans hres
    | reset tmo => exact (List.get?_append hi).trans hres
    | config c tmo => exact (List.get?_append hi).trans hres
    | clock d => exact hres
  | reply t v' =>
    rcases hq : getQ st.responses_ t with _ | ⟨r, rest⟩
    · have hM : matchReply st t v' = st := by
        simp [matchReply, hq]
      rw [hM]
      exact hres
    · rw [matchReply_cons hq v']
      have hrp : r.promise ∈ allPids st.responses_ :=
        List.mem_map_of_mem _ (mem_allReqs_of_mem_getQ
          (by rw [hq]; exact List.mem_cons_self r rest))
      have hne : r.promise ≠ i := by
        intro hc
        have := hpend _ hrp
        rw [hc, hres] at this
        exact PromiseState.noConfusion (Option.some.inj this)
      calc (st.promises.set r.promise (PromiseState.resolved (some v'))).get? i
          = st.promises.get? i := List.get?_set_ne _ _ hne
        _ = some (PromiseState.resolved v) := hres
  | sweepPass =>
    have hnotexp : i ∉ ((allReqs st.responses_).filter
        (expiredAt st.clock)).map Request.promise := by
      intro hc
      exact hnotin i v hres
        ((List.Sublist.map Request.promise (List.filter_sublist _)).subset hc)
    show (resolveList st.promises
        (((allReqs st.responses_).filter (expiredAt st.clock)).map Request.promise)
        none).get? i = _
    rw [resolveList_get?_not_mem hnotexp]
    exact hres
  | close =>
    show (resolveList st.promises (allPids st.responses_)
        (some connectionLost)).get? i = _
    rw [resolveList_get?_not_mem (hnotin i v hres)]
    exact hres

/-- C3 witness: on a concrete run (fresh driver, one `trigger_ping`, one
matching reply) the resolved promise's entry is gone from the table. -/
theorem completion_exactly_once_witness :
    0 ∉ allPids (matchReply ((trigger_ping (mkDriver "192.168.194.95" 16171) 3).1)
        "trigger_ping" ⟨true, "ok"⟩).responses_ :=
  (completion_exactly_once
      (Reachable.step
        (Reachable.step (Reachable.init "192.168.194.95" 16171)
          (Step.cmd (StepAW.ping (mkDriver "192.168.194.95" 16171) 3)))
        (Step.reply ((trigger_ping (mkDriver "192.168.194.95" 16171) 3).1)
          "trigger_ping" ⟨true, "ok"⟩))).2
    0 (some ⟨true, "ok"⟩) (by decide)

/-- C4 (spec-modelled sweeper over the code's table): a sweeper pass at an
instant past a pending request's deadline (`issuedAt + timeout <= now`)
removes it from the table and resolves its future with the absent `Response`
(the documented timeout signal), while a pass strictly before the deadline
leaves it pending and still queued — so a command that never gets a reply
resolves to the absent `Response` no earlier than its timeout, and exactly at
the first periodic pass after expiry (the bounded slack being the sweeper's
period). -/
theorem timeout_sweep (st : DriverState) (hinv : Inv st) (t : String) (r : Request)
    (hr : r ∈ getQ st.responses_ t) :
    (r.ts + r.timeout ≤ st.clock →
        (sweep st).promises.get? r.promise = some (PromiseState.resolved none) ∧
        r.promise ∉ allPids (sweep st).responses_) ∧
    (st.clock < r.ts + r.timeout →
        (sweep st).promises.get? r.promise = some PromiseState.pending ∧
        r ∈ getQ (sweep st).responses_ t) := by
  obtain ⟨hpend, hnd⟩ := hinv
  have hmem : r ∈ allReqs st.responses_ := mem_allReqs_of_mem_getQ hr
  have hpmem : r.promise ∈ allPids st.responses_ := List.mem_map_of_mem _ hmem
  have hdisj := disjoint_filter_map_of_nodup (expiredAt st.clock) hnd
  constructor
  · intro hexp
    have hexpb : expiredAt st.clock r = true := by
      simp [expiredAt, hexp]
    have hin : r.promise ∈ ((allReqs st.responses_).filter
        (expiredAt st.clock)).map Request.promise :=
      List.mem_map_of_mem _ (List.mem_filter.mpr ⟨hmem, hexpb⟩)
    constructor
    · show (resolveList st.promises
          (((allReqs st.responses_).filter (expiredAt st.clock)).map Request.promise)
          none).get? r.promise = _
      exact resolveList_get?_mem hin (lt_length_of_pending (hpend _ hpmem))
    · intro hc
      have hc' : r.promise ∈ ((allReqs st.responses_).filter
          (fun x => !expiredAt st.clock x)).map Request.promise := by
        simpa [sweep, allPids, allReqs_filter] using hc
      exact hdisj hin hc'
  · intro hlive
    have hkeepb : (!expiredAt st.clock r) = true := by
      simp only [expiredAt, Bool.not_eq_true']
      exact decide_eq_false (by omega)
    constructor
    · have hnotexp : r.promise ∉ ((allReqs st.responses_).filter
          (expiredAt st.clock)).map Request.promise := by
        intro hc
        exact hdisj hc
          (List.mem_map_of_mem _ (List.mem_filter.mpr ⟨hmem, hkeepb⟩))
      show (resolveList st.promises
          (((allReqs st.responses_).filter (expiredAt st.clock)).map Request.promise)
          none).get? r.promise = _
      rw [resolveList_get?_not_mem hnotexp]
      exact hpend _ hpmem
    · have h2 : getQ (sweep st).responses_ t
          = (getQ st.responses_ t).filter (fun x => !expiredAt st.clock x) :=
        getQ_map_filter st.responses_ (fun x => !expiredAt st.clock x) t
      rw [h2]
      exact List.mem_filter.mpr ⟨hr, hkeepb⟩

/-- C4 witness: concrete state with a `trigger_ping` issued at clock 0 with
timeout 1 and a `calibrate_gyro` issued at clock 5 with timeout 10; a sweep
at clock 5 resolves the expired ping with the absent `Response` and removes
it from the table. -/
theorem timeout_sweep_witness :
    (sweep (calibrate_gyro (tick (trigger_ping (mkDriver "192.168.194.95" 16171) 1).1 5)
        10).1).promises.get? 0 = some (PromiseState.resolved none) ∧
    0 ∉ allPids (sweep (calibrate_gyro
        (tick (trigger_ping (mkDriver "192.168.194.95" 16171) 1).1 5) 10).1).responses_ :=
  (timeout_sweep
      (calibrate_gyro (tick (trigger_ping (mkDriver "192.168.194.95" 16171) 1).1 5) 10).1
      ⟨by decide, by decide⟩ "trigger_ping" ⟨0, 1, 0⟩ (by decide)).1 (by decide)

/-- C5 (spec-modelled disconnect path of the receive loop): when the transport
signals permanent disconnection, every queue of the table is emptied, every
request that was pending — across all command types — has its future resolved
with the connection-lost `Response` (success `false` and a descriptive
message), and the receive loop is no longer running; no caller is left
blocked. -/
theorem disconnect_drains (st : DriverState) (hinv : Inv st) :
    (∀ t, getQ (disconnect st).responses_ t = []) ∧
    (disconnect st).loopRunning = false ∧
    (∀ t r, r ∈ getQ st.responses_ t →
        (disconnect st).promises.get? r.promise
          = some (PromiseState.resolved (some connectionLost))) := by
  obtain ⟨hpend, hnd⟩ := hinv
  refine ⟨fun t => rfl, rfl, ?_⟩
  intro t r hr
  have hpmem : r.promise ∈ allPids st.responses_ :=
    List.mem_map_of_mem _ (mem_allReqs_of_mem_getQ hr)
  show (resolveList st.promises (allPids st.responses_)
      (some connectionLost)).get? r.promise = _
  exact resolveList_get?_mem hpmem (lt_length_of_pending (hpend _ hpmem))

/-- C5 witness: with a `trigger_ping` and a `calibrate_gyro` pending, a
disconnect resolves the ping's future with the connection-lost `Response`. -/
theorem disconnect_drains_witness :
    (disconnect (calibrate_gyro
        (tick (trigger_ping (mkDriver "192.168.194.95" 16171) 1).1 5) 10).1).promises.get? 0
      = some (PromiseState.resolved (some connectionLost)) :=
  (disconnect_drains
      (calibrate_gyro (tick (trigger_ping (mkDriver "192.168.194.95" 16171) 1).1 5) 10).1
      ⟨by decide, by decide⟩).2.2 "trigger_ping" ⟨0, 1, 0⟩ (by decide)

end DvlA50
